import Mathlib

/-!
# pg_color: the value codec and comparator of `src/pg_color.c`

A shallow embedding of the colour type of `pg_color.c`: the text parser
`color_from_str`, the formatter `color_to_str`, the binary pair
`color_send` / `color_recv`, the comparison operators and `rgb_distance`.

Conventions of the embedding.

* A C `uint8` is a `Nat` below 256; every store into a `uint8` field is an
  explicit `% 256`.  `color.valid` says that the three fields are in range.
* A C string is the list of its characters, the terminating NUL left implicit:
  reading at or past the end of the list yields NUL (`charAt`).  A pointer into
  the string is its offset from the start.
* `elog(ERROR, msg)` leaves the function; it is `Except.error msg`.
* The host primitives the file calls (`strtol`, `psprintf`, `pq_sendint8`,
  `pq_getmsgint64`, ...) are embedded with their documented behaviour.
* The `double` arithmetic of `rgb_distance` is on integers of small magnitude,
  where it is exact, and is done in `Int`; the library `sqrt` is a parameter.
-/

namespace PgColor

/-! ## Data model -/

/-- The struct `color` (lines 24-29): three `uint8` channels. -/
structure color where
  r : Nat
  g : Nat
  b : Nat
  deriving DecidableEq, Repr

/-- Each channel fits its `uint8` field. -/
def color.valid (c : color) : Prop := c.r < 256 ∧ c.g < 256 ∧ c.b < 256

instance (c : color) : Decidable c.valid := by
  unfold color.valid; infer_instance

/-- Narrowing conversion of a signed integer to `uint8`: the low 8 bits. -/
def toUint8 (v : Int) : Nat := (v % 256).toNat

/-! ## Binary codec -/

/-- A `StringInfo` message buffer: its bytes (`data`, of length `len`) and the
read position `cursor`. -/
structure StringInfo where
  data : List Nat
  cursor : Nat
  deriving DecidableEq, Repr

/-- A `bytea` varlena: the total size stored in the 4-byte header and the
payload bytes behind the header. -/
structure bytea where
  varsize : Nat
  vardata : List Nat
  deriving DecidableEq, Repr

/-- Size of the varlena header, `VARHDRSZ`. -/
def VARHDRSZ : Nat := 4

/-- Embedding of `pq_begintypsend`: a fresh buffer with four bytes reserved for the varlena
length word. -/
def pq_begintypsend : List Nat := [0, 0, 0, 0]

/-- Embedding of `pq_sendint8(buf, i)`: append the one byte `i` (a `uint8` argument). -/
def pq_sendint8 (buf : List Nat) (i : Nat) : List Nat := buf ++ [i % 256]

/-- Embedding of `pq_endtypsend`: the buffer is returned as a `bytea` whose header holds the
buffer length; the payload is what follows the header. -/
def pq_endtypsend (buf : List Nat) : bytea :=
  { varsize := buf.length, vardata := buf.drop VARHDRSZ }

/-- Embedding of `color_send` (lines 425-438). -/
def color_send (a : color) : bytea :=
  let buf := pq_begintypsend
  let buf := pq_sendint8 buf a.r
  let buf := pq_sendint8 buf a.g
  let buf := pq_sendint8 buf a.b
  pq_endtypsend buf

/-- Big-endian value of a byte sequence (network byte order). -/
def be_value (bs : List Nat) : Nat := bs.foldl (fun acc x => acc * 256 + x) 0

/-- Embedding of `pq_getmsgint64(msg)`: copy 8 bytes from the cursor (`pq_copymsgbytes`,
which raises "insufficient data left in message" when fewer than 8 bytes are
unread), advance the cursor by 8, and return the bytes read as a big-endian
two's complement 64-bit integer. -/
def pq_getmsgint64 (msg : StringInfo) : Except String (Int × StringInfo) :=
  if 8 > msg.data.length - msg.cursor then
    .error "insufficient data left in message"
  else
    let u := be_value ((msg.data.drop msg.cursor).take 8)
    let v : Int := if u < 2 ^ 63 then (u : Int) else (u : Int) - 2 ^ 64
    .ok (v, { msg with cursor := msg.cursor + 8 })

/-- Embedding of `color_recv` (lines 442-453): three `pq_getmsgint64` reads, each stored
into a `uint8` field.  Returns the colour and the buffer after the reads. -/
def color_recv (buf : StringInfo) : Except String (color × StringInfo) :=
  match pq_getmsgint64 buf with
  | .error e => .error e
  | .ok (v1, buf) =>
    match pq_getmsgint64 buf with
    | .error e => .error e
    | .ok (v2, buf) =>
      match pq_getmsgint64 buf with
      | .error e => .error e
      | .ok (v3, buf) =>
        .ok ({ r := toUint8 v1, g := toUint8 v2, b := toUint8 v3 }, buf)

/-- The message buffer a receiver gets for a sent value: the payload of the
`bytea`, unread. -/
def recv_buffer (p : bytea) : StringInfo := { data := p.vardata, cursor := 0 }

/-! ## Text codec -/

/-- The terminating NUL character of a C string. -/
def NUL : Char := Char.ofNat 0

/-- Embedding of `p[0]` for the pointer `str + i`: the character at offset `i`, NUL at and
past the end of the string. -/
def charAt (str : List Char) (i : Nat) : Char := (str.drop i).headD NUL

/-- Embedding of `isspace` in the C locale: space, `\t`, `\n`, `\v`, `\f`, `\r`. -/
def isspace (c : Char) : Bool :=
  c.toNat = 32 || (9 ≤ c.toNat && c.toNat ≤ 13)

/-- Embedding of `isdigit`: the ASCII digits `0`..`9`. -/
def isdigit (c : Char) : Bool := 48 ≤ c.toNat && c.toNat ≤ 57

/-- Largest value of a 64-bit `long` / `long long`. -/
def LONG_MAX : Int := 2 ^ 63 - 1

/-- Smallest value of a 64-bit `long` / `long long`. -/
def LONG_MIN : Int := -(2 ^ 63)

/-- Number of leading white-space characters, which `strtol` skips. -/
def skip_space : List Char → Nat
  | [] => 0
  | c :: t => if isspace c then skip_space t + 1 else 0

/-- Length of the optional sign at the head of the subject sequence. -/
def sign_len : List Char → Nat
  | c :: _ => if c = '-' || c = '+' then 1 else 0
  | [] => 0

/-- Number of leading decimal digits. -/
def digit_count : List Char → Nat
  | [] => 0
  | c :: t => if isdigit c then digit_count t + 1 else 0

/-- Value of the leading run of decimal digits, accumulated left to right
from `acc`. -/
def digit_value : List Char → Nat → Nat
  | [], acc => acc
  | c :: t, acc => if isdigit c then digit_value t (acc * 10 + (c.toNat - 48)) else acc

/-- Embedding of `strtol(nptr, &endptr, 10)` and `strtoll(nptr, &endptr, 10)` with a 64-bit
result type: skip white space, read an optional sign and the longest run of
decimal digits.  Returns the value, clamped to `LONG_MIN .. LONG_MAX` on
overflow, and `endptr - nptr`; with no digit the value is 0 and
`endptr = nptr`. -/
def strtol (nptr : List Char) : Int × Nat :=
  let ws := skip_space nptr
  let s := nptr.drop ws
  let sg := sign_len s
  let ds := s.drop sg
  let nd := digit_count ds
  if nd = 0 then (0, 0)
  else
    let mag : Int := (digit_value ds 0 : Nat)
    let v := if s.headD NUL = '-' then max LONG_MIN (-mag) else min LONG_MAX mag
    (v, ws + sg + nd)

/-- The conversion `%d` (and `INT64_FORMAT`) of `psprintf` / `elog`: the
decimal digits of the value, preceded by `-` when it is negative. -/
def fmt_d (v : Int) : List Char :=
  if v < 0 then '-' :: Nat.toDigits 10 v.natAbs else Nat.toDigits 10 v.toNat

/-- Embedding of `color_from_str` (lines 172-209).  Pointers are offsets into `str`. -/
def color_from_str (str : List Char) : Except String color :=
  let cur := 0
  if charAt str cur ≠ '(' then .error "expected '(' at position 0"
  else
    let cur := cur + 1
    let res1 := strtol (str.drop cur)
    let endptr := cur + res1.2
    let r := toUint8 res1.1
    if cur = endptr then .error "expected number at position 1"
    else if charAt str endptr ≠ ',' then
      .error ("expected ',' at position " ++ String.mk (fmt_d endptr))
    else
      let cur := endptr + 1
      let res2 := strtol (str.drop cur)
      let endptr := cur + res2.2
      let g := toUint8 res2.1
      if cur = endptr then .error "expected number at position 2"
      else if charAt str endptr ≠ ',' then
        .error ("expected ',' at position " ++ String.mk (fmt_d endptr))
      else
        let cur := endptr + 1
        let res3 := strtol (str.drop cur)
        let endptr := cur + res3.2
        let b := toUint8 res3.1
        if charAt str endptr ≠ ')' then
          .error ("expected ')' at position " ++ String.mk (fmt_d endptr))
        else if charAt str (endptr + 1) ≠ NUL then
          .error ("unexpected character at position " ++ String.mk (fmt_d (1 + endptr)))
        else .ok { r := r, g := g, b := b }

/-- Embedding of `color_to_str` (lines 211-216): `psprintf("(%d,%d,%d)", c->r, c->g, c->b)`. -/
def color_to_str (c : color) : List Char :=
  ['('] ++ fmt_d c.r ++ [','] ++ fmt_d c.g ++ [','] ++ fmt_d c.b ++ [')']

/-- Offset of the end of the first integer. -/
def end1 (str : List Char) : Nat := 1 + (strtol (str.drop 1)).2
/-- Offset of the end of the second integer. -/
def end2 (str : List Char) : Nat := end1 str + 1 + (strtol (str.drop (end1 str + 1))).2
/-- Offset of the end of the third integer. -/
def end3 (str : List Char) : Nat := end2 str + 1 + (strtol (str.drop (end2 str + 1))).2

/-! ## Comparator -/

/-- Embedding of `color_eq` (lines 250-260).  The C truth value is read as a `Bool`. -/
def color_eq (c1 c2 : color) : Bool :=
  c1.r == c2.r && c1.g == c2.g && c1.b == c2.b

/-- Embedding of `color_ne` (lines 263-270). -/
def color_ne (c1 c2 : color) : Bool :=
  c1.r != c2.r || c1.g != c2.g || c1.b != c2.b

/-- Embedding of `color_cmp` (lines 274-302).  The arguments are pointers: `none` is the
NULL pointer, `some c` a pointer to the value `c`. -/
def color_cmp (c1 c2 : Option color) : Int :=
  match c1 with
  | none => 1
  | some c1 =>
    match c2 with
    | none => -1
    | some c2 =>
      if c1.r > c2.r then 1
      else if c1.r < c2.r then -1
      else if c1.g > c2.g then 1
      else if c1.g < c2.g then -1
      else if c1.b > c2.b then 1
      else if c1.b < c2.b then -1
      else 0

/-- Embedding of `color_lt` (lines 322-344). -/
def color_lt (c1 c2 : color) : Bool :=
  if c1.r < c2.r then true
  else if c1.r > c2.r then false
  else if c1.g < c2.g then true
  else if c1.g > c2.g then false
  else if c1.b < c2.b then true
  else if c1.b > c2.b then false
  else false

/-- Embedding of `color_le` (lines 348-370). -/
def color_le (c1 c2 : color) : Bool :=
  if c1.r < c2.r then true
  else if c1.r > c2.r then false
  else if c1.g < c2.g then true
  else if c1.g > c2.g then false
  else if c1.b < c2.b then true
  else if c1.b > c2.b then false
  else true

/-- Embedding of `color_gt` (lines 373-395). -/
def color_gt (c1 c2 : color) : Bool :=
  if c1.r > c2.r then true
  else if c1.r < c2.r then false
  else if c1.g > c2.g then true
  else if c1.g < c2.g then false
  else if c1.b > c2.b then true
  else if c1.b < c2.b then false
  else false

/-- Embedding of `color_ge` (lines 399-421). -/
def color_ge (c1 c2 : color) : Bool :=
  if c1.r > c2.r then true
  else if c1.r < c2.r then false
  else if c1.g > c2.g then true
  else if c1.g < c2.g then false
  else if c1.b > c2.b then true
  else if c1.b < c2.b then false
  else true

/-! ## Notions of the specification -/

/-- The specification's lexicographic order on the channel triple: at the first
channel, in the order r, g, b, where `x` and `y` differ, the channel of `x` is
the smaller one. -/
def lex_lt (x y : color) : Prop :=
  x.r < y.r ∨ (x.r = y.r ∧ (x.g < y.g ∨ (x.g = y.g ∧ x.b < y.b)))

instance (x y : color) : Decidable (lex_lt x y) := by
  unfold lex_lt; infer_instance

/-- The specification's INT: an optional sign followed by a non-empty run of
ASCII digits. -/
def is_INT (i : List Char) : Bool :=
  match i with
  | [] => false
  | c :: t =>
    if c = '-' || c = '+' then !t.isEmpty && t.all isdigit else (c :: t).all isdigit

/-- The specification's strict grammar `"(" INT "," INT "," INT ")"`. -/
def strict_grammar (s : List Char) : Prop :=
  ∃ i1 i2 i3 : List Char,
    s = '(' :: (i1 ++ ',' :: (i2 ++ ',' :: (i3 ++ [')'])))
      ∧ is_INT i1 = true ∧ is_INT i2 = true ∧ is_INT i3 = true

/-- An INT preceded by any number of white-space characters. -/
def is_WS_INT (f : List Char) : Bool := is_INT (f.dropWhile isspace)

/-- The specification's "begins with a valid integer", as the integer read
accepts it: optional white space, an optional sign, then at least one digit. -/
def starts_with_integer (s : List Char) : Bool :=
  match s.dropWhile isspace with
  | [] => false
  | c :: t => if c = '-' || c = '+' then isdigit (t.headD NUL) else isdigit c

/-- The specification's value of an INT: the decimal value of its digits,
negated when the sign is `-`. -/
def int_value (i : List Char) : Int :=
  match i with
  | [] => 0
  | c :: t =>
    if c = '-' then -((digit_value t 0 : Nat) : Int)
    else if c = '+' then ((digit_value t 0 : Nat) : Int)
    else ((digit_value (c :: t) 0 : Nat) : Int)

/-! ## Distance -/

/-- The argument of `sqrt` in `rgb_distance` (lines 313-318): the three
channel differences `d1`, `d2`, `d3` and the sum of their squares.  The
operands are `double`s; a `double` holds every integer of magnitude below
`2 ^ 53` exactly and adds, subtracts and multiplies such integers exactly, and
all values here are bounded by `3 * 255 ^ 2`, so the arithmetic is that of the
integers.  The conversion `(double)c1->r` comes before the subtraction, which
is therefore signed. -/
def rgb_sqsum (c1 c2 : color) : Int :=
  let d1 : Int := (c1.r : Int) - (c2.r : Int)
  let d2 : Int := (c1.g : Int) - (c2.g : Int)
  let d3 : Int := (c1.b : Int) - (c2.b : Int)
  d1 * d1 + d2 * d2 + d3 * d3

/-- Embedding of `rgb_distance` (lines 306-319).  The library function `sqrt`
is a parameter: a function from the (integer-valued) argument to the type of
results. -/
def rgb_distance {α : Type} (sqrt : Int → α) (c1 c2 : color) : α :=
  sqrt (rgb_sqsum c1 c2)

/-- The specification's canonical decimal form of `n`: a non-empty run of
ASCII digits (so no sign and no white space) whose decimal value is `n`, with
no leading zero, the single digit `0` apart. -/
def is_canonical_dec (ds : List Char) (n : Nat) : Bool :=
  !ds.isEmpty && ds.all isdigit && (digit_value ds 0 == n)
    && (ds == ['0'] || ds.headD NUL != '0')

/-! ## Binary codec: theorems -/

/-- The payload of `color_send` is the three channel bytes. -/
theorem color_send_vardata (a : color) :
    (color_send a).vardata = [a.r % 256, a.g % 256, a.b % 256] := by
  simp [color_send, pq_begintypsend, pq_sendint8, pq_endtypsend, VARHDRSZ]

/-- A buffer with fewer than 8 unread bytes makes `color_recv` raise. -/
theorem color_recv_short (buf : StringInfo) (h : buf.data.length - buf.cursor < 8) :
    color_recv buf = .error "insufficient data left in message" := by
  simp [color_recv, pq_getmsgint64, h]

/-- C1 (code defect): the binary round trip fails for every colour value.
`color_send` writes one byte per channel, so the payload has 3 bytes, while
`color_recv` reads each channel with `pq_getmsgint64`, which needs 8 unread
bytes: decoding the encoded value raises "insufficient data left in message"
instead of returning the value. -/
theorem C1_recv_of_send_fails (v : color) :
    color_recv (recv_buffer (color_send v))
      = .error "insufficient data left in message" := by
  apply color_recv_short
  simp [recv_buffer, color_send_vardata]

/-- C2 (code defect): on the buffer holding the three unread bytes 1, 2, 3
`color_recv` raises instead of returning (1,2,3); and on a buffer of 24 unread
bytes it succeeds with the channels taken from the bytes at offsets 7, 15 and
23, not from the first three bytes. -/
theorem C2_recv_three_bytes_fails :
    color_recv { data := [1, 2, 3], cursor := 0 }
        = .error "insufficient data left in message"
    ∧ color_recv { data := [1, 2, 3, 4, 5, 6, 7, 8, 9, 10, 11, 12, 13, 14, 15, 16,
                            17, 18, 19, 20, 21, 22, 23, 24], cursor := 0 }
        = .ok ({ r := 8, g := 16, b := 24 },
               { data := [1, 2, 3, 4, 5, 6, 7, 8, 9, 10, 11, 12, 13, 14, 15, 16,
                          17, 18, 19, 20, 21, 22, 23, 24], cursor := 24 }) := by
  constructor <;> rfl

/-- C3: `color_send` is a total function and, for every colour value, the
payload of the `bytea` it returns has exactly 3 bytes, the channels r, g, b in
that order, one unsigned 8-bit byte each; the varlena size is header plus 3. -/
theorem C3_send_three_bytes (v : color) (hv : v.valid) :
    (color_send v).vardata = [v.r, v.g, v.b]
    ∧ (color_send v).vardata.length = 3
    ∧ (color_send v).varsize = VARHDRSZ + 3
    ∧ (∀ x ∈ (color_send v).vardata, x < 256) := by
  obtain ⟨hr, hg, hb⟩ := hv
  have hd : (color_send v).vardata = [v.r, v.g, v.b] := by
    rw [color_send_vardata, Nat.mod_eq_of_lt hr, Nat.mod_eq_of_lt hg, Nat.mod_eq_of_lt hb]
  refine ⟨hd, by rw [hd]; rfl, ?_, ?_⟩
  · simp [color_send, pq_begintypsend, pq_sendint8, pq_endtypsend, VARHDRSZ]
  · rw [hd]
    intro x hx
    simp at hx
    rcases hx with rfl | rfl | rfl <;> assumption

/-- C3 at the value (10,20,30). -/
theorem C3_send_three_bytes_witness :
    (⟨10, 20, 30⟩ : color).valid
    ∧ (color_send ⟨10, 20, 30⟩).vardata = [10, 20, 30]
    ∧ (color_send ⟨10, 20, 30⟩).vardata.length = 3
    ∧ (color_send ⟨10, 20, 30⟩).varsize = VARHDRSZ + 3
    ∧ (∀ x ∈ (color_send ⟨10, 20, 30⟩).vardata, x < 256) :=
  ⟨by decide, C3_send_three_bytes ⟨10, 20, 30⟩ (by decide)⟩

/-! ## Text codec: theorems -/

/-- A digit is not white space. -/
theorem isspace_of_isdigit {c : Char} (h : isdigit c = true) : isspace c = false := by
  simp only [isdigit, isspace, Bool.and_eq_true, decide_eq_true_eq, Bool.or_eq_false_iff,
    decide_eq_false_iff_not, Bool.and_eq_false_imp] at *
  omega

/-- A run of digits followed by a non-digit is counted whole. -/
theorem digit_count_append (ds rest : List Char) (hds : ∀ c ∈ ds, isdigit c = true)
    (hrest : isdigit (rest.headD NUL) = false) :
    digit_count (ds ++ rest) = ds.length := by
  induction ds with
  | nil =>
    cases rest with
    | nil => rfl
    | cons c t => simpa [digit_count] using hrest
  | cons d ds ih =>
    have hd : isdigit d = true := hds d (List.mem_cons_self _ _)
    simp [digit_count, hd, ih (fun c hc => hds c (List.mem_cons_of_mem _ hc))]

/-- The value of a run of digits does not depend on what follows it. -/
theorem digit_value_append (ds rest : List Char) (hds : ∀ c ∈ ds, isdigit c = true)
    (hrest : isdigit (rest.headD NUL) = false) (acc : Nat) :
    digit_value (ds ++ rest) acc = digit_value ds acc := by
  induction ds generalizing acc with
  | nil =>
    cases rest with
    | nil => rfl
    | cons c t =>
      have : isdigit c = false := by simpa using hrest
      simp [digit_value, this]
  | cons d ds ih =>
    have hd : isdigit d = true := hds d (List.mem_cons_self _ _)
    simp [digit_value, hd, ih (fun c hc => hds c (List.mem_cons_of_mem _ hc))]

/-- A digit is not a sign character. -/
theorem not_sign_of_isdigit {c : Char} (h : isdigit c = true) : c ≠ '-' ∧ c ≠ '+' := by
  constructor <;> (rintro rfl; revert h; decide)

/-- Lemma: `strtol` on a non-empty run of digits followed by a non-digit reads the
whole run. -/
theorem strtol_of_digits (ds rest : List Char) (hne : ds ≠ [])
    (hds : ∀ c ∈ ds, isdigit c = true) (hrest : isdigit (rest.headD NUL) = false) :
    strtol (ds ++ rest) = (min LONG_MAX (digit_value ds 0 : Nat), ds.length) := by
  cases ds with
  | nil => exact absurd rfl hne
  | cons d t =>
    have hd : isdigit d = true := hds d (List.mem_cons_self _ _)
    have hsp : skip_space (d :: t ++ rest) = 0 := by
      simp [skip_space, isspace_of_isdigit hd]
    have hsg : sign_len (d :: t ++ rest) = 0 := by
      simp [sign_len, (not_sign_of_isdigit hd).1, (not_sign_of_isdigit hd).2]
    have hcnt := digit_count_append (d :: t) rest hds hrest
    have hval := digit_value_append (d :: t) rest hds hrest 0
    unfold strtol
    simp only [hsp, hsg, List.drop_zero, hcnt, hval]
    simp [(not_sign_of_isdigit hd).1]

/-- Exact condition under which `color_from_str` returns a value. -/
theorem color_from_str_ok_iff (str : List Char) (c : color) :
    color_from_str str = .ok c ↔
      (charAt str 0 = '(' ∧ (strtol (str.drop 1)).2 ≠ 0 ∧ charAt str (end1 str) = ','
        ∧ (strtol (str.drop (end1 str + 1))).2 ≠ 0 ∧ charAt str (end2 str) = ','
        ∧ charAt str (end3 str) = ')' ∧ charAt str (end3 str + 1) = NUL
        ∧ c = { r := toUint8 (strtol (str.drop 1)).1,
                g := toUint8 (strtol (str.drop (end1 str + 1))).1,
                b := toUint8 (strtol (str.drop (end2 str + 1))).1 }) := by
  simp only [color_from_str, end1, end2, end3, Nat.zero_add]
  split_ifs <;> simp_all
  exact eq_comm

/-- Moving a pointer over a field and its delimiter. -/
theorem drop_field (str A X : List Char) (d : Char) (k : Nat)
    (h : str.drop k = A ++ d :: X) :
    str.drop (k + A.length + 1) = X ∧ charAt str (k + A.length) = d := by
  have h1 : str.drop (k + A.length) = d :: X := by
    rw [← List.drop_drop, h]; simp
  constructor
  · rw [← List.drop_drop, h1]; rfl
  · simp [charAt, h1]

/-- Lemma: `color_from_str` on three fields that `strtol` reads whole. -/
theorem color_from_str_fields (A B C : List Char) (v1 v2 v3 : Int)
    (hA : strtol (A ++ ',' :: (B ++ ',' :: (C ++ [')']))) = (v1, A.length)) (hA0 : A ≠ [])
    (hB : strtol (B ++ ',' :: (C ++ [')'])) = (v2, B.length)) (hB0 : B ≠ [])
    (hC : strtol (C ++ [')']) = (v3, C.length)) :
    color_from_str ('(' :: (A ++ ',' :: (B ++ ',' :: (C ++ [')']))))
      = .ok { r := toUint8 v1, g := toUint8 v2, b := toUint8 v3 } := by
  have lA : A.length ≠ 0 := fun h => hA0 (List.length_eq_zero.mp h)
  have lB : B.length ≠ 0 := fun h => hB0 (List.length_eq_zero.mp h)
  generalize hstr : '(' :: (A ++ ',' :: (B ++ ',' :: (C ++ [')']))) = str
  have c0 : charAt str 0 = '(' := by rw [← hstr]; rfl
  have d1 : str.drop 1 = A ++ ',' :: (B ++ ',' :: (C ++ [')'])) := by rw [← hstr]; rfl
  have e1 : end1 str = 1 + A.length := by rw [end1, d1, hA]
  obtain ⟨d2, c1⟩ := drop_field str A _ ',' 1 d1
  rw [← e1] at d2 c1
  have e2 : end2 str = end1 str + 1 + B.length := by rw [end2, d2, hB]
  obtain ⟨d3, c2⟩ := drop_field str B _ ',' (end1 str + 1) d2
  rw [← e2] at d3 c2
  have e3 : end3 str = end2 str + 1 + C.length := by rw [end3, d3, hC]
  have d3a : str.drop (end2 str + 1) = C ++ ')' :: [] := d3
  obtain ⟨d4, c3⟩ := drop_field str C _ ')' (end2 str + 1) d3a
  rw [← e3] at d4 c3
  have c4 : charAt str (end3 str + 1) = NUL := by simp [charAt, d4]
  rw [color_from_str_ok_iff]
  refine ⟨c0, ?_, c1, ?_, c2, c3, c4, ?_⟩
  · rw [d1, hA]; exact lA
  · rw [d2, hB]; exact lB
  · rw [d1, d2, d3, hA, hB, hC]

/-- Lemma: `%d` of a non-negative value is its decimal digits. -/
theorem fmt_d_natCast (n : Nat) : fmt_d (n : Int) = Nat.toDigits 10 n := by
  simp [fmt_d]

set_option maxRecDepth 1000000 in
/-- The decimal digits of an 8-bit value: non-empty, digits, of that value. -/
theorem toDigits_uint8 : ∀ n, n < 256 →
    (Nat.toDigits 10 n ≠ [] ∧ (Nat.toDigits 10 n).all isdigit = true
      ∧ digit_value (Nat.toDigits 10 n) 0 = n) := by
  decide

/-- Narrowing an 8-bit value leaves it unchanged. -/
theorem toUint8_natCast (n : Nat) (h : n < 256) : toUint8 (n : Int) = n := by
  unfold toUint8
  omega

/-- Lemma: `strtol` reads back what `%d` printed for an 8-bit value. -/
theorem strtol_fmt_d (n : Nat) (h : n < 256) (rest : List Char)
    (hrest : isdigit (rest.headD NUL) = false) :
    strtol (fmt_d (n : Int) ++ rest) = ((n : Int), (fmt_d (n : Int)).length) := by
  obtain ⟨hne, hall, hval⟩ := toDigits_uint8 n h
  rw [fmt_d_natCast, strtol_of_digits _ rest hne (List.all_eq_true.mp hall) hrest, hval]
  have : min LONG_MAX (n : Int) = n := by
    unfold LONG_MAX
    omega
  rw [this]

/-- C4: text round trip.  For every colour whose channels are 8-bit values,
`color_from_str` applied to the string `color_to_str` produces succeeds and
returns exactly that colour. -/
theorem C4_parse_format_roundtrip (c : color) (hc : c.valid) :
    color_from_str (color_to_str c) = .ok c := by
  obtain ⟨hr, hg, hb⟩ := hc
  have h := color_from_str_fields (fmt_d c.r) (fmt_d c.g) (fmt_d c.b) c.r c.g c.b
    (strtol_fmt_d c.r hr _ rfl) (by rw [fmt_d_natCast]; exact (toDigits_uint8 c.r hr).1)
    (strtol_fmt_d c.g hg _ rfl) (by rw [fmt_d_natCast]; exact (toDigits_uint8 c.g hg).1)
    (strtol_fmt_d c.b hb _ rfl)
  rw [toUint8_natCast _ hr, toUint8_natCast _ hg, toUint8_natCast _ hb] at h
  simpa [color_to_str] using h

/-- C4 at the value (10,20,30). -/
theorem C4_parse_format_roundtrip_witness :
    (⟨10, 20, 30⟩ : color).valid
      ∧ color_from_str (color_to_str ⟨10, 20, 30⟩) = .ok ⟨10, 20, 30⟩ :=
  ⟨by decide, C4_parse_format_roundtrip ⟨10, 20, 30⟩ (by decide)⟩

/-- The leading run counted by `digit_count` consists of digits. -/
theorem take_digit_count (t : List Char) :
    (t.take (digit_count t)).all isdigit = true
      ∧ (t.take (digit_count t)).length = digit_count t := by
  induction t with
  | nil => simp [digit_count]
  | cons c t ih =>
    by_cases hc : isdigit c = true
    · simp [digit_count, hc, ih.1, ih.2]
    · simp [digit_count, hc]

/-- Dropping leading white space commutes with `skip_space`. -/
theorem dropWhile_take_skip (s : List Char) (k : Nat) :
    (s.take (skip_space s + k)).dropWhile isspace
      = ((s.drop (skip_space s)).take k).dropWhile isspace := by
  induction s with
  | nil => simp [skip_space]
  | cons c t ih =>
    by_cases hc : isspace c = true
    · have : skip_space t + 1 + k = (skip_space t + k) + 1 := by omega
      simp [skip_space, hc, this, List.dropWhile_cons, ih]
    · simp [skip_space, hc]

/-- The character after the skipped white space is not white space. -/
theorem head_drop_skip (s : List Char) (c : Char) (t : List Char)
    (h : s.drop (skip_space s) = c :: t) : isspace c = false := by
  induction s with
  | nil => simp [skip_space] at h
  | cons a u ih =>
    by_cases ha : isspace a = true
    · simp [skip_space, ha] at h
      exact ih h
    · simp [skip_space, ha] at h
      rw [← h.1]
      simpa using ha

/-- The number of characters `strtol` consumes. -/
theorem strtol_snd (s : List Char) :
    (strtol s).2 =
      if digit_count ((s.drop (skip_space s)).drop (sign_len (s.drop (skip_space s)))) = 0
      then 0
      else skip_space s + (sign_len (s.drop (skip_space s))
        + digit_count ((s.drop (skip_space s)).drop (sign_len (s.drop (skip_space s))))) := by
  unfold strtol
  simp only
  split_ifs <;> simp [Nat.add_assoc]

/-- What `strtol` consumes, when it consumes anything, is white space followed
by an INT. -/
theorem strtol_take_is_WS_INT (s : List Char) (h : (strtol s).2 ≠ 0) :
    is_WS_INT (s.take (strtol s).2) = true := by
  rw [strtol_snd] at h ⊢
  split_ifs at h ⊢ with hnd
  · exact absurd rfl h
  · simp only [is_WS_INT, dropWhile_take_skip]
    cases hs : s.drop (skip_space s) with
    | nil => simp [hs, sign_len, digit_count] at hnd
    | cons c t =>
      rw [hs] at hnd
      have hsp := head_drop_skip s c t hs
      by_cases hsg : (c = '-' || c = '+') = true
      · have h1 : sign_len (c :: t) = 1 := by simp [sign_len, hsg]
        rw [h1] at hnd ⊢
        simp only [List.drop_succ_cons, List.drop_zero] at hnd ⊢
        obtain ⟨hall, hlen⟩ := take_digit_count t
        have hne : (t.take (digit_count t)).isEmpty = false := by
          cases hk : t.take (digit_count t) with
          | nil => rw [hk] at hlen; exact absurd hlen.symm hnd
          | cons _ _ => rfl
        rw [Nat.add_comm, List.take_succ_cons, List.dropWhile_cons, hsp]
        simp only [Bool.false_eq_true, if_false, is_INT, hsg, if_true, hne, hall]
        rfl
      · have h0 : sign_len (c :: t) = 0 := by simp [sign_len, hsg]
        rw [h0] at hnd ⊢
        simp only [List.drop_zero, Nat.zero_add] at hnd ⊢
        obtain ⟨hall, hlen⟩ := take_digit_count (c :: t)
        cases hk : (c :: t).take (digit_count (c :: t)) with
        | nil => rw [hk] at hlen; exact absurd hlen.symm hnd
        | cons a u =>
          have ha : a = c := by
            cases hdc : digit_count (c :: t) with
            | zero => exact absurd hdc hnd
            | succ m => rw [hdc, List.take_succ_cons] at hk; exact (List.cons.inj hk).1.symm
          subst ha
          rw [hk] at hall
          rw [List.dropWhile_cons, hsp]
          simp only [Bool.false_eq_true, if_false, is_INT, hsg]
          exact hall

/-- A character read that is not NUL is a character of the string. -/
theorem drop_of_charAt (str : List Char) (k : Nat) (ch : Char)
    (h : charAt str k = ch) (hne : ch ≠ NUL) : str.drop k = ch :: str.drop (k + 1) := by
  unfold charAt at h
  cases hd : str.drop k with
  | nil => rw [hd] at h; exact absurd h.symm hne
  | cons a t =>
    rw [hd] at h
    have ha : a = ch := h
    rw [ha, ← List.drop_drop, hd]
    rfl

/-- In a string without embedded NUL, reading NUL means the end. -/
theorem drop_of_charAt_NUL (str : List Char) (k : Nat) (hs : ∀ ch ∈ str, ch ≠ NUL)
    (h : charAt str k = NUL) : str.drop k = [] := by
  unfold charAt at h
  cases hd : str.drop k with
  | nil => rfl
  | cons a t =>
    rw [hd] at h
    have ha : a = NUL := h
    have hmem : a ∈ str := List.mem_of_mem_drop (hd ▸ List.mem_cons_self a t)
    exact absurd ha (hs a hmem)

/-- A suffix is its first `n` characters followed by the later suffix. -/
theorem drop_split (str : List Char) (k n : Nat) :
    str.drop k = (str.drop k).take n ++ str.drop (k + n) := by
  rw [← List.drop_drop, List.take_append_drop]

/-- C5 (amended): for every input string (a C string, so without embedded NUL)
on which `color_from_str` succeeds, the whole string is
`"(" F1 "," F2 "," F3 ")"` with nothing after the closing parenthesis, where
F1 and F2 are each an INT (optional sign, non-empty run of ASCII digits)
preceded by any number of white-space characters, and so is F3 whenever F3 is
not empty. -/
theorem C5_accepted_shape (s : List Char) (c : color) (hs : ∀ ch ∈ s, ch ≠ NUL)
    (h : color_from_str s = .ok c) :
    ∃ f1 f2 f3 : List Char,
      s = '(' :: (f1 ++ ',' :: (f2 ++ ',' :: (f3 ++ [')'])))
        ∧ is_WS_INT f1 = true ∧ is_WS_INT f2 = true
        ∧ (f3 ≠ [] → is_WS_INT f3 = true) := by
  obtain ⟨c0, hn1, c1, hn2, c2, c3, c4, _⟩ := (color_from_str_ok_iff s c).mp h
  have p0 := drop_of_charAt s 0 '(' c0 (by decide)
  have p1 := drop_split s 1 (strtol (s.drop 1)).2
  have p2 := drop_of_charAt s (end1 s) ',' c1 (by decide)
  have p3 := drop_split s (end1 s + 1) (strtol (s.drop (end1 s + 1))).2
  have p4 := drop_of_charAt s (end2 s) ',' c2 (by decide)
  have p5 := drop_split s (end2 s + 1) (strtol (s.drop (end2 s + 1))).2
  have p6 := drop_of_charAt s (end3 s) ')' c3 (by decide)
  have p7 := drop_of_charAt_NUL s (end3 s + 1) hs c4
  refine ⟨(s.drop 1).take (strtol (s.drop 1)).2,
    (s.drop (end1 s + 1)).take (strtol (s.drop (end1 s + 1))).2,
    (s.drop (end2 s + 1)).take (strtol (s.drop (end2 s + 1))).2, ?_,
    strtol_take_is_WS_INT _ hn1, strtol_take_is_WS_INT _ hn2, ?_⟩
  · rw [p7] at p6
    rw [show end2 s + 1 + (strtol (s.drop (end2 s + 1))).2 = end3 s from rfl, p6] at p5
    rw [p5] at p4
    rw [show end1 s + 1 + (strtol (s.drop (end1 s + 1))).2 = end2 s from rfl, p4] at p3
    rw [p3] at p2
    rw [show 1 + (strtol (s.drop 1)).2 = end1 s from rfl, p2] at p1
    rw [Nat.zero_add, p1, List.drop_zero] at p0
    exact p0
  · intro hne
    apply strtol_take_is_WS_INT
    intro h0
    rw [h0] at hne
    exact hne rfl

/-- C5 (amended) at the accepted input `( 1,2,3)`. -/
theorem C5_accepted_shape_witness :
    (∀ ch ∈ "( 1,2,3)".toList, ch ≠ NUL)
      ∧ color_from_str "( 1,2,3)".toList = .ok ⟨1, 2, 3⟩
      ∧ ∃ f1 f2 f3 : List Char,
        "( 1,2,3)".toList = '(' :: (f1 ++ ',' :: (f2 ++ ',' :: (f3 ++ [')'])))
          ∧ is_WS_INT f1 = true ∧ is_WS_INT f2 = true
          ∧ (f3 ≠ [] → is_WS_INT f3 = true) :=
  ⟨by decide, rfl, C5_accepted_shape "( 1,2,3)".toList ⟨1, 2, 3⟩ (by decide) rfl⟩

/-- An INT has at least one character. -/
theorem is_INT_length_pos (i : List Char) (h : is_INT i = true) : 0 < i.length := by
  cases i with
  | nil => simp [is_INT] at h
  | cons a t => simp

/-- C5 as stated fails: `( 1,2,3)`, with a space before a number, and `(1,2,)`,
with an empty third number, are both accepted by `color_from_str`, and neither
matches the strict grammar. -/
theorem C5_strict_grammar_counterexample :
    (color_from_str "( 1,2,3)".toList = .ok ⟨1, 2, 3⟩ ∧ ¬ strict_grammar "( 1,2,3)".toList)
    ∧ (color_from_str "(1,2,)".toList = .ok ⟨1, 2, 0⟩ ∧ ¬ strict_grammar "(1,2,)".toList) := by
  refine ⟨⟨rfl, ?_⟩, ⟨rfl, ?_⟩⟩
  · rintro ⟨i1, i2, i3, hs, h1, -, -⟩
    cases i1 with
    | nil => simp [is_INT] at h1
    | cons a t =>
      have ha : a = ' ' := by
        have := (List.cons.inj (List.cons.inj hs).2).1
        exact this.symm
      subst ha
      revert h1
      simp [is_INT, isdigit]
  · rintro ⟨i1, i2, i3, hs, h1, h2, h3⟩
    have l1 := is_INT_length_pos i1 h1
    have l2 := is_INT_length_pos i2 h2
    have l3 := is_INT_length_pos i3 h3
    have hl := congrArg List.length hs
    simp at hl
    omega

/-! ## Comparator: theorems -/

/-- Lemma: `color_cmp` is negative exactly on lexicographically smaller triples. -/
theorem color_cmp_neg_iff (x y : color) :
    color_cmp (some x) (some y) < 0 ↔
      (x.r < y.r ∨ (x.r = y.r ∧ (x.g < y.g ∨ (x.g = y.g ∧ x.b < y.b)))) := by
  simp only [color_cmp]
  split_ifs <;> simp <;> omega

/-- Lemma: `color_cmp` is non-positive exactly on lexicographically smaller or equal
triples. -/
theorem color_cmp_nonpos_iff (x y : color) :
    color_cmp (some x) (some y) ≤ 0 ↔
      (x.r < y.r ∨ (x.r = y.r ∧ (x.g < y.g ∨ (x.g = y.g ∧ x.b ≤ y.b)))) := by
  simp only [color_cmp]
  split_ifs <;> simp <;> omega

/-- C6: `color_cmp` is the lexicographic order on (r, g, b).  Its only results
are -1, 0 and 1; it is negative exactly when, at the first channel where the
two values differ, the first value has the smaller channel, positive exactly
when it has the larger one there, and zero exactly when all three channels
are equal. -/
theorem C6_cmp_lexicographic (x y : color) :
    (color_cmp (some x) (some y) = -1 ∨ color_cmp (some x) (some y) = 0
        ∨ color_cmp (some x) (some y) = 1)
    ∧ (color_cmp (some x) (some y) < 0 ↔ lex_lt x y)
    ∧ (color_cmp (some x) (some y) > 0 ↔ lex_lt y x)
    ∧ (color_cmp (some x) (some y) = 0 ↔ x.r = y.r ∧ x.g = y.g ∧ x.b = y.b) := by
  simp only [color_cmp, lex_lt]
  split_ifs <;> simp <;> omega

/-- C7: the four relational operators agree with `color_cmp`:
`color_lt` holds iff the comparison is negative, `color_le` iff it is not
positive, `color_gt` iff it is positive, `color_ge` iff it is not negative. -/
theorem C7_relational_agree_cmp (x y : color) :
    (color_lt x y = true ↔ color_cmp (some x) (some y) < 0)
    ∧ (color_le x y = true ↔ color_cmp (some x) (some y) ≤ 0)
    ∧ (color_gt x y = true ↔ color_cmp (some x) (some y) > 0)
    ∧ (color_ge x y = true ↔ color_cmp (some x) (some y) ≥ 0) := by
  simp only [color_cmp, color_lt, color_le, color_gt, color_ge]
  split_ifs <;> simp <;> omega

/-- C8: trichotomy of the operators.  For all values exactly one of
`color_lt`, `color_eq`, `color_gt` holds. -/
theorem C8_trichotomy (x y : color) :
    (color_lt x y = true ∧ color_eq x y = false ∧ color_gt x y = false)
    ∨ (color_lt x y = false ∧ color_eq x y = true ∧ color_gt x y = false)
    ∨ (color_lt x y = false ∧ color_eq x y = false ∧ color_gt x y = true) := by
  simp only [color_lt, color_eq, color_gt]
  split_ifs <;> simp <;> omega

/-- C9: transitivity of the order given by `color_cmp`.  If `x` is not above
`y` and `y` is not above `z`, then `x` is not above `z`; and if one of the two
steps is strict, so is the conclusion. -/
theorem C9_cmp_transitive (x y z : color)
    (hxy : color_cmp (some x) (some y) ≤ 0) (hyz : color_cmp (some y) (some z) ≤ 0) :
    color_cmp (some x) (some z) ≤ 0
    ∧ (color_cmp (some x) (some y) < 0 ∨ color_cmp (some y) (some z) < 0 →
        color_cmp (some x) (some z) < 0) := by
  rw [color_cmp_nonpos_iff] at hxy hyz
  rw [color_cmp_nonpos_iff, color_cmp_neg_iff, color_cmp_neg_iff, color_cmp_neg_iff]
  constructor
  · omega
  · intro h
    omega

/-- C9 at (1,2,3) < (1,2,4) < (1,3,0). -/
theorem C9_cmp_transitive_witness :
    color_cmp (some ⟨1, 2, 3⟩) (some ⟨1, 2, 4⟩) ≤ 0
    ∧ color_cmp (some ⟨1, 2, 4⟩) (some ⟨1, 3, 0⟩) ≤ 0
    ∧ color_cmp (some ⟨1, 2, 3⟩) (some ⟨1, 2, 4⟩) < 0
    ∧ color_cmp (some ⟨1, 2, 3⟩) (some ⟨1, 3, 0⟩) ≤ 0
    ∧ color_cmp (some ⟨1, 2, 3⟩) (some ⟨1, 3, 0⟩) < 0 :=
  have h := C9_cmp_transitive ⟨1, 2, 3⟩ ⟨1, 2, 4⟩ ⟨1, 3, 0⟩ (by decide) (by decide)
  ⟨by decide, by decide, by decide, h.1, h.2 (Or.inl (by decide))⟩

/-- C10: equality consistency.  `color_eq` holds iff `color_cmp` is zero, which
is the case iff the three channels of the two values are equal. -/
theorem C10_eq_iff_cmp_zero (x y : color) :
    (color_eq x y = true ↔ color_cmp (some x) (some y) = 0)
    ∧ (color_cmp (some x) (some y) = 0 ↔ x.r = y.r ∧ x.g = y.g ∧ x.b = y.b) := by
  simp only [color_cmp, color_eq]
  split_ifs <;> simp <;> omega

/-! ## Equality and inequality -/

/-- C11: inequality is the negation of equality.  For all values `color_ne`
is true iff `color_eq` is false. -/
theorem C11_ne_iff_not_eq (x y : color) :
    (color_ne x y = true ↔ color_eq x y = false)
    ∧ color_ne x y = !color_eq x y := by
  have h : color_ne x y = !color_eq x y := by
    simp only [color_ne, color_eq, Bool.not_and, bne]
  refine ⟨?_, h⟩
  rw [h]
  cases color_eq x y <;> simp

/-! ## Text parser: the error paths -/

/-- The checks of `color_from_str` in the order in which it makes them. -/
theorem color_from_str_checks (str : List Char) :
    color_from_str str =
      if charAt str 0 ≠ '(' then .error "expected '(' at position 0"
      else if (strtol (str.drop 1)).2 = 0 then .error "expected number at position 1"
      else if charAt str (end1 str) ≠ ',' then
        .error ("expected ',' at position " ++ String.mk (fmt_d (end1 str)))
      else if (strtol (str.drop (end1 str + 1))).2 = 0 then
        .error "expected number at position 2"
      else if charAt str (end2 str) ≠ ',' then
        .error ("expected ',' at position " ++ String.mk (fmt_d (end2 str)))
      else if charAt str (end3 str) ≠ ')' then
        .error ("expected ')' at position " ++ String.mk (fmt_d (end3 str)))
      else if charAt str (end3 str + 1) ≠ NUL then
        .error ("unexpected character at position "
          ++ String.mk (fmt_d (1 + (end3 str : Int))))
      else .ok { r := toUint8 (strtol (str.drop 1)).1,
                 g := toUint8 (strtol (str.drop (end1 str + 1))).1,
                 b := toUint8 (strtol (str.drop (end2 str + 1))).1 } := by
  simp only [color_from_str, end1, end2, end3, Nat.zero_add, self_eq_add_right]

/-- First check: the opening parenthesis. -/
theorem color_from_str_err_open (str : List Char) (h : charAt str 0 ≠ '(') :
    color_from_str str = .error "expected '(' at position 0" := by
  rw [color_from_str_checks, if_pos h]

/-- Third check: the separator after the first integer. -/
theorem color_from_str_err_sep1 (str : List Char) (h0 : charAt str 0 = '(')
    (h1 : (strtol (str.drop 1)).2 ≠ 0) (c1 : charAt str (end1 str) ≠ ',') :
    color_from_str str
      = .error ("expected ',' at position " ++ String.mk (fmt_d (end1 str))) := by
  rw [color_from_str_checks, if_neg (not_not.mpr h0), if_neg h1, if_pos c1]

/-- Fourth check: the second integer read consumed nothing. -/
theorem color_from_str_err_num2 (str : List Char) (h0 : charAt str 0 = '(')
    (h1 : (strtol (str.drop 1)).2 ≠ 0) (c1 : charAt str (end1 str) = ',')
    (h2 : (strtol (str.drop (end1 str + 1))).2 = 0) :
    color_from_str str = .error "expected number at position 2" := by
  rw [color_from_str_checks, if_neg (not_not.mpr h0), if_neg h1, if_neg (not_not.mpr c1),
    if_pos h2]

/-- Fifth check: the separator after the second integer. -/
theorem color_from_str_err_sep2 (str : List Char) (h0 : charAt str 0 = '(')
    (h1 : (strtol (str.drop 1)).2 ≠ 0) (c1 : charAt str (end1 str) = ',')
    (h2 : (strtol (str.drop (end1 str + 1))).2 ≠ 0) (c2 : charAt str (end2 str) ≠ ',') :
    color_from_str str
      = .error ("expected ',' at position " ++ String.mk (fmt_d (end2 str))) := by
  rw [color_from_str_checks, if_neg (not_not.mpr h0), if_neg h1, if_neg (not_not.mpr c1),
    if_neg h2, if_pos c2]

/-- Sixth check: the closing parenthesis after the third integer read. -/
theorem color_from_str_err_close (str : List Char) (h0 : charAt str 0 = '(')
    (h1 : (strtol (str.drop 1)).2 ≠ 0) (c1 : charAt str (end1 str) = ',')
    (h2 : (strtol (str.drop (end1 str + 1))).2 ≠ 0) (c2 : charAt str (end2 str) = ',')
    (c3 : charAt str (end3 str) ≠ ')') :
    color_from_str str
      = .error ("expected ')' at position " ++ String.mk (fmt_d (end3 str))) := by
  rw [color_from_str_checks, if_neg (not_not.mpr h0), if_neg h1, if_neg (not_not.mpr c1),
    if_neg h2, if_neg (not_not.mpr c2), if_pos c3]

/-- Seventh check: the end of the string after the closing parenthesis. -/
theorem color_from_str_err_trailing (str : List Char) (h0 : charAt str 0 = '(')
    (h1 : (strtol (str.drop 1)).2 ≠ 0) (c1 : charAt str (end1 str) = ',')
    (h2 : (strtol (str.drop (end1 str + 1))).2 ≠ 0) (c2 : charAt str (end2 str) = ',')
    (c3 : charAt str (end3 str) = ')') (c4 : charAt str (end3 str + 1) ≠ NUL) :
    color_from_str str
      = .error ("unexpected character at position "
          ++ String.mk (fmt_d (1 + (end3 str : Int)))) := by
  rw [color_from_str_checks, if_neg (not_not.mpr h0), if_neg h1, if_neg (not_not.mpr c1),
    if_neg h2, if_neg (not_not.mpr c2), if_neg (not_not.mpr c3), if_pos c4]

/-- C16: for every input string, the empty one included, whose first byte is
not `(`, `color_from_str` fails with the error "expected '(' at position 0",
whatever the rest of the string is. -/
theorem C16_missing_open_paren (str : List Char) (h : str.head? ≠ some '(') :
    color_from_str str = .error "expected '(' at position 0" := by
  apply color_from_str_err_open
  cases str with
  | nil => decide
  | cons a t =>
    intro ha
    apply h
    simp only [charAt, List.drop_zero, List.headD_cons] at ha
    simp [ha]

/-- C16 at the input `1,2,3)`. -/
theorem C16_missing_open_paren_witness :
    "1,2,3)".toList.head? ≠ some '('
      ∧ color_from_str "1,2,3)".toList = .error "expected '(' at position 0" :=
  ⟨by decide, C16_missing_open_paren "1,2,3)".toList (by decide)⟩

/-- What `skip_space` skips is what `dropWhile isspace` drops. -/
theorem drop_skip_space (s : List Char) : s.drop (skip_space s) = s.dropWhile isspace := by
  induction s with
  | nil => rfl
  | cons c t ih =>
    by_cases hc : isspace c = true
    · simp [skip_space, hc, List.dropWhile_cons, ih]
    · simp [skip_space, hc, List.dropWhile_cons]

/-- No digit at the head: the run of digits is empty. -/
theorem digit_count_eq_zero (t : List Char) (h : isdigit (t.headD NUL) = false) :
    digit_count t = 0 := by
  cases t with
  | nil => rfl
  | cons c u =>
    have hc : isdigit c = false := h
    simp [digit_count, hc]

/-- On a text that does not begin with an integer `strtol` consumes nothing. -/
theorem strtol_snd_of_not_starts (s : List Char) (h : starts_with_integer s = false) :
    (strtol s).2 = 0 := by
  rw [strtol_snd, drop_skip_space]
  unfold starts_with_integer at h
  cases hd : s.dropWhile isspace with
  | nil => rfl
  | cons c t =>
    rw [hd] at h
    simp only at h
    by_cases hsg : (c = '-' || c = '+') = true
    · rw [if_pos hsg] at h
      have h1 : sign_len (c :: t) = 1 := by simp [sign_len, hsg]
      rw [h1, List.drop_succ_cons, List.drop_zero, digit_count_eq_zero t h]
      rfl
    · rw [if_neg hsg] at h
      have h0 : sign_len (c :: t) = 0 := by simp [sign_len, hsg]
      rw [h0, List.drop_zero, digit_count_eq_zero (c :: t) h]
      rfl

/-- Lemma: `strtol` on an INT followed by a non-digit reads the whole INT and
returns its value, clamped to the range of the result type. -/
theorem strtol_of_INT (i rest : List Char) (hi : is_INT i = true)
    (hrest : isdigit (rest.headD NUL) = false) :
    strtol (i ++ rest)
      = (if i.headD NUL = '-' then max LONG_MIN (int_value i)
          else min LONG_MAX (int_value i), i.length) := by
  cases i with
  | nil => simp [is_INT] at hi
  | cons c t =>
    by_cases hsg : (c = '-' || c = '+') = true
    · simp only [is_INT, hsg, if_true, Bool.and_eq_true, Bool.not_eq_true',
        List.all_eq_true] at hi
      obtain ⟨hne, hall⟩ := hi
      have hsp : isspace c = false := by
        simp only [Bool.or_eq_true, decide_eq_true_eq] at hsg
        rcases hsg with rfl | rfl <;> decide
      have hskip : skip_space (c :: (t ++ rest)) = 0 := by simp [skip_space, hsp]
      have hsign : sign_len (c :: (t ++ rest)) = 1 := by
        simp only [sign_len, hsg, if_true]
      have hcnt := digit_count_append t rest hall hrest
      have hval := digit_value_append t rest hall hrest 0
      have hlen : t.length ≠ 0 := by
        cases t with
        | nil => simp at hne
        | cons _ _ => simp
      rw [List.cons_append]
      unfold strtol
      simp only [hskip, hsign, List.drop_zero, List.drop_succ_cons,
        hcnt, hval, hlen, if_false, List.headD_cons, int_value]
      simp only [Bool.or_eq_true, decide_eq_true_eq] at hsg
      rcases hsg with rfl | rfl
      · simp [Nat.add_comm]
      · simp [Nat.add_comm]
    · have hall : ∀ x ∈ c :: t, isdigit x = true := by
        simp only [is_INT, hsg] at hi
        exact List.all_eq_true.mp hi
      have hc : c ≠ '-' ∧ c ≠ '+' := by
        simp only [Bool.or_eq_true, decide_eq_true_eq, not_or] at hsg
        exact hsg
      rw [strtol_of_digits (c :: t) rest (List.cons_ne_nil c t) hall hrest]
      simp [int_value, hc.1, hc.2]

/-- Lemma: `strtol` on an INT whose value is in the range of the result type. -/
theorem strtol_of_INT_in_range (i rest : List Char) (hi : is_INT i = true)
    (hrest : isdigit (rest.headD NUL) = false)
    (hlo : LONG_MIN ≤ int_value i) (hhi : int_value i ≤ LONG_MAX) :
    strtol (i ++ rest) = (int_value i, i.length) := by
  rw [strtol_of_INT i rest hi hrest]
  split_ifs
  · rw [max_eq_right hlo]
  · rw [min_eq_right hhi]

/-- An INT is not empty. -/
theorem ne_nil_of_is_INT (i : List Char) (hi : is_INT i = true) : i ≠ [] := by
  rintro rfl
  simp [is_INT] at hi

/-- What `strtol` consumes of an INT followed by a non-digit. -/
theorem strtol_snd_of_INT (i rest : List Char) (hi : is_INT i = true)
    (hrest : isdigit (rest.headD NUL) = false) :
    (strtol (i ++ rest)).2 = i.length := by
  rw [strtol_of_INT i rest hi hrest]

/-- The low 8 bits are an 8-bit value. -/
theorem toUint8_lt (v : Int) : toUint8 v < 256 := by
  unfold toUint8
  omega

/-- C19: channel truncation.  For every input `(n1,n2,n3)` whose three numbers
are INTs (optional sign, digits) with values in the range of a 64-bit signed
integer, `color_from_str` succeeds and each channel holds the low 8 bits of
its number, that is the number modulo 256 taken in 0..255. -/
theorem C19_channel_truncation (i1 i2 i3 : List Char)
    (h1 : is_INT i1 = true) (h2 : is_INT i2 = true) (h3 : is_INT i3 = true)
    (r1 : LONG_MIN ≤ int_value i1 ∧ int_value i1 ≤ LONG_MAX)
    (r2 : LONG_MIN ≤ int_value i2 ∧ int_value i2 ≤ LONG_MAX)
    (r3 : LONG_MIN ≤ int_value i3 ∧ int_value i3 ≤ LONG_MAX) :
    color_from_str ('(' :: (i1 ++ ',' :: (i2 ++ ',' :: (i3 ++ [')']))))
        = .ok { r := (int_value i1 % 256).toNat,
                g := (int_value i2 % 256).toNat,
                b := (int_value i3 % 256).toNat }
    ∧ (int_value i1 % 256).toNat < 256
    ∧ (int_value i2 % 256).toNat < 256
    ∧ (int_value i3 % 256).toNat < 256 := by
  refine ⟨?_, toUint8_lt _, toUint8_lt _, toUint8_lt _⟩
  exact color_from_str_fields i1 i2 i3 (int_value i1) (int_value i2) (int_value i3)
    (strtol_of_INT_in_range i1 _ h1 rfl r1.1 r1.2) (ne_nil_of_is_INT i1 h1)
    (strtol_of_INT_in_range i2 _ h2 rfl r2.1 r2.2) (ne_nil_of_is_INT i2 h2)
    (strtol_of_INT_in_range i3 _ h3 rfl r3.1 r3.2)

/-- C19 at the inputs `(999,0,0)`, which parses to (231,0,0), and `(-1,0,0)`,
which parses to (255,0,0). -/
theorem C19_channel_truncation_witness :
    (is_INT "999".toList = true ∧ is_INT "-1".toList = true ∧ is_INT "0".toList = true)
    ∧ (LONG_MIN ≤ int_value "999".toList ∧ int_value "999".toList ≤ LONG_MAX)
    ∧ (LONG_MIN ≤ int_value "-1".toList ∧ int_value "-1".toList ≤ LONG_MAX)
    ∧ (LONG_MIN ≤ int_value "0".toList ∧ int_value "0".toList ≤ LONG_MAX)
    ∧ color_from_str "(999,0,0)".toList = .ok { r := 231, g := 0, b := 0 }
    ∧ color_from_str "(-1,0,0)".toList = .ok { r := 255, g := 0, b := 0 } :=
  ⟨by decide, by decide, by decide, by decide,
    (C19_channel_truncation "999".toList "0".toList "0".toList (by decide) (by decide)
      (by decide) (by decide) (by decide) (by decide)).1,
    (C19_channel_truncation "-1".toList "0".toList "0".toList (by decide) (by decide)
      (by decide) (by decide) (by decide) (by decide)).1⟩

/-! ## Text parser: offsets of the fields -/

/-- The position printed by `%d` / `INT64_FORMAT` for an offset is its decimal
representation. -/
theorem fmt_d_repr (n : Nat) : String.mk (fmt_d (n : Int)) = Nat.repr n := by
  rw [fmt_d_natCast]
  rfl

/-- Moving a pointer over an INT that is followed by a non-digit. -/
theorem field_step (str i rest : List Char) (k : Nat) (hd : str.drop k = i ++ rest)
    (hi : is_INT i = true) (hr : isdigit (rest.headD NUL) = false) :
    (strtol (str.drop k)).2 = i.length ∧ str.drop (k + i.length) = rest := by
  constructor
  · rw [hd, strtol_snd_of_INT i rest hi hr]
  · rw [← List.drop_drop, hd]
    simp

/-- Reading a separator and moving the pointer over it. -/
theorem sep_step (str X : List Char) (d : Char) (k : Nat) (hd : str.drop k = d :: X) :
    charAt str k = d ∧ str.drop (k + 1) = X := by
  constructor
  · simp [charAt, hd]
  · rw [← List.drop_drop, hd]
    rfl

/-- The first field of `( i1 rest`: what the first read consumes, and where
it ends. -/
theorem first_field (i1 rest : List Char) (h1 : is_INT i1 = true)
    (hr : isdigit (rest.headD NUL) = false) :
    (strtol (('(' :: (i1 ++ rest)).drop 1)).2 ≠ 0
      ∧ end1 ('(' :: (i1 ++ rest)) = 1 + i1.length
      ∧ ('(' :: (i1 ++ rest)).drop (end1 ('(' :: (i1 ++ rest))) = rest := by
  obtain ⟨hn, hdrop⟩ := field_step ('(' :: (i1 ++ rest)) i1 rest 1 rfl h1 hr
  have hlen : i1.length ≠ 0 := fun h => ne_nil_of_is_INT i1 h1 (List.length_eq_zero.mp h)
  have he : end1 ('(' :: (i1 ++ rest)) = 1 + i1.length := by rw [end1, hn]
  exact ⟨by rw [hn]; exact hlen, he, by rw [he]; exact hdrop⟩

/-- The second field of `( i1 , i2 rest`. -/
theorem second_field (i1 i2 rest : List Char) (h1 : is_INT i1 = true)
    (h2 : is_INT i2 = true) (hr : isdigit (rest.headD NUL) = false) :
    charAt ('(' :: (i1 ++ ',' :: (i2 ++ rest))) (end1 ('(' :: (i1 ++ ',' :: (i2 ++ rest)))) = ','
      ∧ (strtol (('(' :: (i1 ++ ',' :: (i2 ++ rest))).drop
            (end1 ('(' :: (i1 ++ ',' :: (i2 ++ rest))) + 1))).2 ≠ 0
      ∧ end2 ('(' :: (i1 ++ ',' :: (i2 ++ rest))) = 1 + i1.length + 1 + i2.length
      ∧ ('(' :: (i1 ++ ',' :: (i2 ++ rest))).drop (end2 ('(' :: (i1 ++ ',' :: (i2 ++ rest))))
          = rest := by
  generalize hstr : '(' :: (i1 ++ ',' :: (i2 ++ rest)) = str
  obtain ⟨-, he1, hd1⟩ := first_field i1 (',' :: (i2 ++ rest)) h1 rfl
  rw [hstr] at he1 hd1
  obtain ⟨hc, hd2⟩ := sep_step str _ ',' _ hd1
  obtain ⟨hn, hdrop⟩ := field_step str i2 rest _ hd2 h2 hr
  have hlen : i2.length ≠ 0 := fun h => ne_nil_of_is_INT i2 h2 (List.length_eq_zero.mp h)
  have he : end2 str = 1 + i1.length + 1 + i2.length := by rw [end2, hn, he1]
  exact ⟨hc, by rw [hn]; exact hlen, he, by rw [he, ← he1]; exact hdrop⟩

/-- The third field of `( i1 , i2 , i3 rest`. -/
theorem third_field (i1 i2 i3 rest : List Char) (h1 : is_INT i1 = true)
    (h2 : is_INT i2 = true) (h3 : is_INT i3 = true)
    (hr : isdigit (rest.headD NUL) = false) :
    charAt ('(' :: (i1 ++ ',' :: (i2 ++ ',' :: (i3 ++ rest))))
        (end2 ('(' :: (i1 ++ ',' :: (i2 ++ ',' :: (i3 ++ rest))))) = ','
      ∧ end3 ('(' :: (i1 ++ ',' :: (i2 ++ ',' :: (i3 ++ rest))))
          = 1 + i1.length + 1 + i2.length + 1 + i3.length
      ∧ ('(' :: (i1 ++ ',' :: (i2 ++ ',' :: (i3 ++ rest)))).drop
          (end3 ('(' :: (i1 ++ ',' :: (i2 ++ ',' :: (i3 ++ rest))))) = rest := by
  generalize hstr : '(' :: (i1 ++ ',' :: (i2 ++ ',' :: (i3 ++ rest))) = str
  obtain ⟨-, -, he2, hd2⟩ := second_field i1 i2 (',' :: (i3 ++ rest)) h1 h2 rfl
  rw [hstr] at he2 hd2
  obtain ⟨hc, hd3⟩ := sep_step str _ ',' _ hd2
  obtain ⟨hn, hdrop⟩ := field_step str i3 rest _ hd3 h3 hr
  have he : end3 str = 1 + i1.length + 1 + i2.length + 1 + i3.length := by
    rw [end3, hn, he2]
  exact ⟨hc, he, by rw [he, ← he2]; exact hdrop⟩

/-- Reading the opening parenthesis. -/
theorem charAt_open (t : List Char) : charAt ('(' :: t) 0 = '(' := rfl

/-- C15: missing delimiters.  When the input opens with `(` and an INT and the
byte after that INT is not `,`, `color_from_str` fails with "expected ','" at
the offset of that byte; likewise after the second INT; and when the byte
after the third INT is not `)` (the end of the input included) it fails with
"expected ')'" at the offset of that byte.  An INT is the whole run of digits,
so the byte after it (the head of `rest`, NUL at the end of the input) is not
a digit. -/
theorem C15_missing_delimiter (i1 i2 i3 rest : List Char) (h1 : is_INT i1 = true)
    (hr : isdigit (rest.headD NUL) = false) :
    (rest.headD NUL ≠ ',' →
      color_from_str ('(' :: (i1 ++ rest))
        = .error ("expected ',' at position " ++ Nat.repr (1 + i1.length)))
    ∧ (is_INT i2 = true → rest.headD NUL ≠ ',' →
      color_from_str ('(' :: (i1 ++ ',' :: (i2 ++ rest)))
        = .error ("expected ',' at position " ++ Nat.repr (1 + i1.length + 1 + i2.length)))
    ∧ (is_INT i2 = true → is_INT i3 = true → rest.headD NUL ≠ ')' →
      color_from_str ('(' :: (i1 ++ ',' :: (i2 ++ ',' :: (i3 ++ rest))))
        = .error ("expected ')' at position "
            ++ Nat.repr (1 + i1.length + 1 + i2.length + 1 + i3.length))) := by
  refine ⟨?_, ?_, ?_⟩
  · intro hne
    obtain ⟨hn1, he1, hd1⟩ := first_field i1 rest h1 hr
    rw [color_from_str_err_sep1 _ (charAt_open _) hn1 (by rw [charAt, hd1]; exact hne), he1, fmt_d_repr]
  · intro h2 hne
    obtain ⟨hn1, -, -⟩ := first_field i1 (',' :: (i2 ++ rest)) h1 rfl
    obtain ⟨c1, hn2, he2, hd2⟩ := second_field i1 i2 rest h1 h2 hr
    rw [color_from_str_err_sep2 _ (charAt_open _) hn1 c1 hn2 (by rw [charAt, hd2]; exact hne), he2,
      fmt_d_repr]
  · intro h2 h3 hne
    obtain ⟨hn1, -, -⟩ := first_field i1 (',' :: (i2 ++ ',' :: (i3 ++ rest))) h1 rfl
    obtain ⟨c1, hn2, -, -⟩ := second_field i1 i2 (',' :: (i3 ++ rest)) h1 h2 rfl
    obtain ⟨c2, he3, hd3⟩ := third_field i1 i2 i3 rest h1 h2 h3 hr
    rw [color_from_str_err_close _ (charAt_open _) hn1 c1 hn2 c2 (by rw [charAt, hd3]; exact hne), he3,
      fmt_d_repr]

/-- C15 at the inputs `(1;2,3)`, `(1,2;3)` and `(1,2,3`. -/
theorem C15_missing_delimiter_witness :
    (is_INT "1".toList = true ∧ is_INT "2".toList = true ∧ is_INT "3".toList = true)
    ∧ color_from_str "(1;2,3)".toList = .error "expected ',' at position 2"
    ∧ color_from_str "(1,2;3)".toList = .error "expected ',' at position 4"
    ∧ color_from_str "(1,2,3".toList = .error "expected ')' at position 6" :=
  ⟨by decide,
    (C15_missing_delimiter "1".toList "2".toList "3".toList ";2,3)".toList
      (by decide) (by decide)).1 (by decide),
    (C15_missing_delimiter "1".toList "2".toList "3".toList ";3)".toList
      (by decide) (by decide)).2.1 (by decide) (by decide),
    (C15_missing_delimiter "1".toList "2".toList "3".toList []
      (by decide) (by decide)).2.2 (by decide) (by decide) (by decide)⟩

/-- C14: trailing input.  For every input made of a well-formed
`(INT,INT,INT)` followed by at least one more character, `color_from_str`
fails with "unexpected character" at the offset of the first extra character,
which is the offset of the closing parenthesis plus one.  The extra character
`x` is a character of a C string, so it is not NUL. -/
theorem C14_trailing_input (i1 i2 i3 : List Char) (x : Char) (rest : List Char)
    (h1 : is_INT i1 = true) (h2 : is_INT i2 = true) (h3 : is_INT i3 = true)
    (hx : x ≠ NUL) :
    color_from_str ('(' :: (i1 ++ ',' :: (i2 ++ ',' :: (i3 ++ ')' :: x :: rest))))
      = .error ("unexpected character at position "
          ++ Nat.repr (1 + i1.length + 1 + i2.length + 1 + i3.length + 1))
    ∧ ('(' :: (i1 ++ ',' :: (i2 ++ ',' :: (i3 ++ ')' :: x :: rest)))).drop
        (1 + i1.length + 1 + i2.length + 1 + i3.length) = ')' :: x :: rest := by
  obtain ⟨hn1, -, -⟩ :=
    first_field i1 (',' :: (i2 ++ ',' :: (i3 ++ ')' :: x :: rest))) h1 rfl
  obtain ⟨c1, hn2, -, -⟩ := second_field i1 i2 (',' :: (i3 ++ ')' :: x :: rest)) h1 h2 rfl
  obtain ⟨c2, he3, hd3⟩ := third_field i1 i2 i3 (')' :: x :: rest) h1 h2 h3 rfl
  obtain ⟨c3, hd4⟩ := sep_step _ _ ')' _ hd3
  have c4 : charAt ('(' :: (i1 ++ ',' :: (i2 ++ ',' :: (i3 ++ ')' :: x :: rest))))
      (end3 ('(' :: (i1 ++ ',' :: (i2 ++ ',' :: (i3 ++ ')' :: x :: rest)))) + 1) ≠ NUL := by
    rw [charAt, hd4]
    exact hx
  have hcast : (1 : Int) + ((1 + i1.length + 1 + i2.length + 1 + i3.length : Nat) : Int)
      = ((1 + i1.length + 1 + i2.length + 1 + i3.length + 1 : Nat) : Int) := by
    push_cast
    ring
  refine ⟨?_, ?_⟩
  · rw [color_from_str_err_trailing _ (charAt_open _) hn1 c1 hn2 c2 c3 c4, he3, hcast, fmt_d_repr]
  · rw [← he3]
    exact hd3

/-- C14 at the input `(1,2,3)x`: the extra character is at offset 7. -/
theorem C14_trailing_input_witness :
    (is_INT "1".toList = true ∧ is_INT "2".toList = true ∧ is_INT "3".toList = true)
    ∧ 'x' ≠ NUL
    ∧ color_from_str "(1,2,3)x".toList = .error "unexpected character at position 7" :=
  ⟨by decide, by decide,
    (C14_trailing_input "1".toList "2".toList "3".toList 'x' []
      (by decide) (by decide) (by decide) (by decide)).1⟩

/-! ## Text formatter -/

set_option maxRecDepth 1000000 in
/-- The decimal representation of an 8-bit value is canonical. -/
theorem repr_canonical_uint8 : ∀ n, n < 256 →
    is_canonical_dec (Nat.repr n).toList n = true := by
  decide

/-- C12: canonical text form.  For every colour value `color_to_str` returns
`(` dec(r) `,` dec(g) `,` dec(b) `)`, where dec(n) is the decimal
representation of the channel: digits only, of value n, without leading zeros
(a single `0` for zero); nothing else is in the string. -/
theorem C12_canonical_text (c : color) (hc : c.valid) :
    color_to_str c
      = '(' :: ((Nat.repr c.r).toList ++ ',' :: ((Nat.repr c.g).toList
          ++ ',' :: ((Nat.repr c.b).toList ++ [')'])))
    ∧ is_canonical_dec (Nat.repr c.r).toList c.r = true
    ∧ is_canonical_dec (Nat.repr c.g).toList c.g = true
    ∧ is_canonical_dec (Nat.repr c.b).toList c.b = true := by
  obtain ⟨hr, hg, hb⟩ := hc
  refine ⟨?_, repr_canonical_uint8 _ hr, repr_canonical_uint8 _ hg,
    repr_canonical_uint8 _ hb⟩
  simp only [color_to_str, fmt_d_natCast, List.cons_append, List.nil_append,
    List.append_assoc]
  rfl

/-- C12 at the value (10,20,30), whose text form is `(10,20,30)`. -/
theorem C12_canonical_text_witness :
    (⟨10, 20, 30⟩ : color).valid
    ∧ color_to_str ⟨10, 20, 30⟩ = "(10,20,30)".toList
    ∧ is_canonical_dec "10".toList 10 = true
    ∧ is_canonical_dec "20".toList 20 = true
    ∧ is_canonical_dec "30".toList 30 = true :=
  ⟨by decide, C12_canonical_text ⟨10, 20, 30⟩ (by decide)⟩

/-! ## Distance: theorems -/

/-- The sum of squares is not negative. -/
theorem rgb_sqsum_nonneg (x y : color) : 0 ≤ rgb_sqsum x y := by
  have h1 := mul_self_nonneg ((x.r : Int) - y.r)
  have h2 := mul_self_nonneg ((x.g : Int) - y.g)
  have h3 := mul_self_nonneg ((x.b : Int) - y.b)
  simp only [rgb_sqsum]
  linarith

/-- C17: `rgb_distance` returns the square root of the exact integer
(a.r-b.r)^2 + (a.g-b.g)^2 + (a.b-b.b)^2, each difference being the signed
difference in -255..255 (no 8-bit wrap-around); the sum is at most
3 * 255^2, far inside the range in which `double` arithmetic on integers is
exact.  In particular the distance from (0,0,0) to (255,0,0) is 255. -/
theorem C17_distance_sqrt_sum_squares {α : Type} (sqrt : Int → α) (x y : color)
    (hx : x.valid) (hy : y.valid) :
    rgb_distance sqrt x y
      = sqrt (((x.r : Int) - (y.r : Int)) ^ 2 + ((x.g : Int) - (y.g : Int)) ^ 2
          + ((x.b : Int) - (y.b : Int)) ^ 2)
    ∧ (-255 ≤ (x.r : Int) - (y.r : Int) ∧ (x.r : Int) - (y.r : Int) ≤ 255)
    ∧ (-255 ≤ (x.g : Int) - (y.g : Int) ∧ (x.g : Int) - (y.g : Int) ≤ 255)
    ∧ (-255 ≤ (x.b : Int) - (y.b : Int) ∧ (x.b : Int) - (y.b : Int) ≤ 255)
    ∧ (0 ≤ rgb_sqsum x y ∧ rgb_sqsum x y ≤ 3 * 255 ^ 2)
    ∧ rgb_distance (fun n : Int => Real.sqrt (n : ℝ)) ⟨0, 0, 0⟩ ⟨255, 0, 0⟩ = 255 := by
  obtain ⟨hxr, hxg, hxb⟩ := hx
  obtain ⟨hyr, hyg, hyb⟩ := hy
  refine ⟨?_, ⟨by omega, by omega⟩, ⟨by omega, by omega⟩, ⟨by omega, by omega⟩, ⟨?_, ?_⟩, ?_⟩
  · simp only [rgb_distance, rgb_sqsum, sq]
  · exact rgb_sqsum_nonneg x y
  · simp only [rgb_sqsum]
    have h1 : ((x.r : Int) - y.r) * ((x.r : Int) - y.r) ≤ 255 ^ 2 := by nlinarith
    have h2 : ((x.g : Int) - y.g) * ((x.g : Int) - y.g) ≤ 255 ^ 2 := by nlinarith
    have h3 : ((x.b : Int) - y.b) * ((x.b : Int) - y.b) ≤ 255 ^ 2 := by nlinarith
    linarith
  · have h : ((rgb_sqsum ⟨0, 0, 0⟩ ⟨255, 0, 0⟩ : Int) : ℝ) = 255 ^ 2 := by
      have : rgb_sqsum ⟨0, 0, 0⟩ ⟨255, 0, 0⟩ = 65025 := by decide
      rw [this]
      norm_num
    simp only [rgb_distance]
    rw [h, Real.sqrt_sq (by norm_num)]

/-- C17 at the values (0,0,0) and (255,0,0). -/
theorem C17_distance_sqrt_sum_squares_witness :
    (⟨0, 0, 0⟩ : color).valid ∧ (⟨255, 0, 0⟩ : color).valid
    ∧ rgb_distance id ⟨0, 0, 0⟩ ⟨255, 0, 0⟩ = 255 ^ 2
    ∧ rgb_distance (fun n : Int => Real.sqrt (n : ℝ)) ⟨0, 0, 0⟩ ⟨255, 0, 0⟩ = 255 :=
  have h := C17_distance_sqrt_sum_squares id ⟨0, 0, 0⟩ ⟨255, 0, 0⟩ (by decide) (by decide)
  ⟨by decide, by decide, by decide, h.2.2.2.2.2⟩

/-- C18: the sum of squared channel differences under the square root is the
same for (x,y) and (y,x), is non-negative, and is zero iff `color_eq x y`
holds; so the distance is symmetric, and it is the square root of zero on
equal values; with the real square root the distance is zero iff
`color_eq x y` holds. -/
theorem C18_distance_symmetric_separating {α : Type} (sqrt : Int → α) (x y : color) :
    rgb_sqsum x y = rgb_sqsum y x
    ∧ 0 ≤ rgb_sqsum x y
    ∧ (rgb_sqsum x y = 0 ↔ color_eq x y = true)
    ∧ rgb_distance sqrt x y = rgb_distance sqrt y x
    ∧ rgb_distance sqrt x x = sqrt 0
    ∧ (rgb_distance (fun n : Int => Real.sqrt (n : ℝ)) x y = 0 ↔ color_eq x y = true) := by
  have hsym : rgb_sqsum x y = rgb_sqsum y x := by
    simp only [rgb_sqsum]
    ring
  have hzero : rgb_sqsum x y = 0 ↔ color_eq x y = true := by
    simp only [rgb_sqsum, color_eq, Bool.and_eq_true, beq_iff_eq]
    constructor
    · intro h
      have h1 := mul_self_nonneg ((x.r : Int) - y.r)
      have h2 := mul_self_nonneg ((x.g : Int) - y.g)
      have h3 := mul_self_nonneg ((x.b : Int) - y.b)
      have e1 : ((x.r : Int) - y.r) * ((x.r : Int) - y.r) = 0 := by linarith
      have e2 : ((x.g : Int) - y.g) * ((x.g : Int) - y.g) = 0 := by linarith
      have e3 : ((x.b : Int) - y.b) * ((x.b : Int) - y.b) = 0 := by linarith
      have z1 := mul_self_eq_zero.mp e1
      have z2 := mul_self_eq_zero.mp e2
      have z3 := mul_self_eq_zero.mp e3
      omega
    · rintro ⟨⟨hr, hg⟩, hb⟩
      rw [hr, hg, hb]
      ring
  refine ⟨hsym, rgb_sqsum_nonneg x y, hzero, ?_, ?_, ?_⟩
  · simp only [rgb_distance, hsym]
  · simp only [rgb_distance, rgb_sqsum, sub_self, mul_zero, add_zero]
  · simp only [rgb_distance]
    rw [Real.sqrt_eq_zero (by exact_mod_cast rgb_sqsum_nonneg x y), Int.cast_eq_zero, hzero]

/-! ## Text parser: the second number -/

/-- After a valid first integer and its comma, a text that does not begin
with an integer makes `color_from_str` fail with the fixed message "expected
number at position 2", whatever the offset of that text is. -/
theorem color_from_str_second_number (i1 t : List Char) (h1 : is_INT i1 = true)
    (ht : starts_with_integer t = false) :
    color_from_str ('(' :: (i1 ++ ',' :: t)) = .error "expected number at position 2"
      ∧ ('(' :: (i1 ++ ',' :: t)).drop (1 + i1.length + 1) = t := by
  obtain ⟨hn1, he1, hd1⟩ := first_field i1 (',' :: t) h1 rfl
  obtain ⟨c1, hd2⟩ := sep_step _ _ ',' _ hd1
  refine ⟨color_from_str_err_num2 _ (charAt_open _) hn1 c1 ?_, ?_⟩
  · rw [hd2]
    exact strtol_snd_of_not_starts t ht
  · rw [← he1]
    exact hd2

/-- C20 (code defect): on `(10,x,3)` the text after the first comma, at offset
4, does not begin with an integer; `color_from_str` fails there, but the
position it reports is the constant 2 and not the offset 4.  The same holds
for `(1,x,3)`, where the offset is 3. -/
theorem C20_second_number_reports_position_2 :
    (color_from_str "(10,x,3)".toList = .error "expected number at position 2"
      ∧ "(10,x,3)".toList.drop 4 = "x,3)".toList
      ∧ starts_with_integer "x,3)".toList = false)
    ∧ (color_from_str "(1,x,3)".toList = .error "expected number at position 2"
      ∧ "(1,x,3)".toList.drop 3 = "x,3)".toList) :=
  ⟨⟨(color_from_str_second_number "10".toList "x,3)".toList (by decide) (by decide)).1,
      by decide, by decide⟩,
    ⟨(color_from_str_second_number "1".toList "x,3)".toList (by decide) (by decide)).1,
      by decide⟩⟩

end PgColor
